import Mathlib

/-!
Shallow embedding of the scoring → ranking → reconciliation pipeline of the
`ai_tanmiya` repository, together with theorems settling the frozen claims.

Conventions of the embedding:
* Python `float` arithmetic is embedded as exact rational arithmetic (`ℚ`);
  `float(f"{x:.4f}")` and `round(x, 2)` are embedded as decimal rounding on `ℚ`.
* Python `int` is `ℤ` (or `ℕ` where the source only ever holds identifiers).
* Remote HTTP calls are embedded as total oracles plus an explicit call log,
  so that "no remote call is attempted" is a statement about the log.
* `list.sort(key=..., reverse=True)` (Timsort, documented stable) is embedded
  as `List.insertionSort` with the relation "may come first", which is the
  standard stable sort of Mathlib; ties therefore keep the original order,
  exactly as CPython's stable sort with `reverse=True` does.
-/

namespace Tanmiya

/-! ## `app/services/score_service.py` — weights and pure scorers -/

/-- Weight constant `PARTICIPANT_WEIGHT = 0.4` from `score_service.py`. -/
def PARTICIPANT_WEIGHT : ℚ := 0.4

/-- Weight constant `MEETING_WEIGHT = 0.4` from `score_service.py`. -/
def MEETING_WEIGHT : ℚ := 0.4

/-- Weight constant `TOPIC_WEIGHT = 0.2` from `score_service.py`. -/
def TOPIC_WEIGHT : ℚ := 0.2

/-- The ten attendance counters read by `calculate_participants_score`
(`safe_get` defaults a missing key to 0, so the record is total). -/
structure Participants where
  ttl_administrator : ℕ
  ptd_administrator : ℕ
  ttl_sub_administrator : ℕ
  ptd_sub_administrator : ℕ
  ttl_coordinator : ℕ
  ptd_coordinator : ℕ
  ttl_member : ℕ
  ptd_member : ℕ
  ttl_gust : ℕ
  ptd_gust : ℕ
deriving DecidableEq

/-- Inner helper `ratio(ptd, ttl)` of `calculate_participants_score`:
`(ptd / ttl) if ttl > 0 else 0.0`. -/
def ratio (ptd ttl : ℕ) : ℚ :=
  if 0 < ttl then (ptd : ℚ) / (ttl : ℚ) else 0

/-- `calculate_participants_score` from `score_service.py`: weighted sum of the
five per-role attendance ratios with weights 0.3 / 0.2 / 0.2 / 0.2 / 0.1. -/
def calculate_participants_score (p : Participants) : ℚ :=
  ratio p.ptd_administrator p.ttl_administrator * 0.3 +
  ratio p.ptd_sub_administrator p.ttl_sub_administrator * 0.2 +
  ratio p.ptd_coordinator p.ttl_coordinator * 0.2 +
  ratio p.ptd_member p.ttl_member * 0.2 +
  ratio p.ptd_gust p.ttl_gust * 0.1

/-- Embedding of `float(f"{x:.4f}")` used by `calculate_scores`: rounding to 4
decimal digits (the binary-float tie-breaking of `%.4f` is embedded as the
integer `round` on `ℚ`; all claim instances are tie-free). -/
def round4 (q : ℚ) : ℚ :=
  ((round (q * 10000) : ℤ) : ℚ) / 10000

/-- The topic-completion expression of `calculate_scores`
(`score_service.py` line 179):
`(total_topics - transferred_topics) / total_topics if total_topics else 0.0`.
Python truthiness of an `int` is `≠ 0`. -/
def topic_completion (total transferred : ℤ) : ℚ :=
  if total ≠ 0 then ((total : ℚ) - (transferred : ℚ)) / (total : ℚ) else 0

/-- One element of the `results` list built by `calculate_scores`
(the `reg_result` dict). -/
structure ScoreRec where
  Region : String
  Region_id : ℕ
  month : String
  meeting_score : ℚ
  participants_score : ℚ
  total_score : ℚ
  total_topics : ℤ
  transferred_topics : ℤ
  Rank : Option ℕ
deriving DecidableEq

/-- The `reg_result` construction of `calculate_scores` (lines 181–193):
`overall = avg_participant_score * PARTICIPANT_WEIGHT + avg_meeting_score *
MEETING_WEIGHT + topic_score * TOPIC_WEIGHT`, stored with the three float
scores rounded to 4 decimal digits and `Rank` initially `None`. -/
def mkRegionResult (region : String) (rid : ℕ) (monthLabel : String)
    (avg_participant_score avg_meeting_score topic_score : ℚ)
    (total_topics transferred_topics : ℤ) : ScoreRec :=
  { Region := region
    Region_id := rid
    month := monthLabel
    meeting_score := round4 avg_meeting_score
    participants_score := round4 avg_participant_score
    total_score := round4 (avg_participant_score * PARTICIPANT_WEIGHT +
      avg_meeting_score * MEETING_WEIGHT + topic_score * TOPIC_WEIGHT)
    total_topics := total_topics
    transferred_topics := transferred_topics
    Rank := none }

/-! ### Small facts about `ratio` -/

theorem ratio_nonneg (ptd ttl : ℕ) : 0 ≤ ratio ptd ttl := by
  unfold ratio
  split
  · positivity
  · exact le_refl 0

theorem ratio_le_one (ptd ttl : ℕ) (h : ptd ≤ ttl) : ratio ptd ttl ≤ 1 := by
  unfold ratio
  split
  · rename_i hpos
    rw [div_le_one (by exact_mod_cast hpos)]
    exact_mod_cast h
  · exact zero_le_one

theorem ratio_zero_total (ptd : ℕ) : ratio ptd 0 = 0 := by
  simp [ratio]

/-- Claim C8: for every `Participants` value with `present ≤ total` in each of
the five role categories the participant score lies in `[0, 1]`; a category
with `total = 0` contributes ratio `0` (no division by zero), and when every
`total` is `0` the score is exactly `0`. -/
theorem participants_score_bounds (p : Participants)
    (h1 : p.ptd_administrator ≤ p.ttl_administrator)
    (h2 : p.ptd_sub_administrator ≤ p.ttl_sub_administrator)
    (h3 : p.ptd_coordinator ≤ p.ttl_coordinator)
    (h4 : p.ptd_member ≤ p.ttl_member)
    (h5 : p.ptd_gust ≤ p.ttl_gust) :
    (0 ≤ calculate_participants_score p ∧ calculate_participants_score p ≤ 1) ∧
    (∀ x : ℕ, ratio x 0 = 0) ∧
    (p.ttl_administrator = 0 → p.ttl_sub_administrator = 0 →
      p.ttl_coordinator = 0 → p.ttl_member = 0 → p.ttl_gust = 0 →
      calculate_participants_score p = 0) := by
  refine ⟨⟨?_, ?_⟩, ratio_zero_total, ?_⟩
  · have n1 := ratio_nonneg p.ptd_administrator p.ttl_administrator
    have n2 := ratio_nonneg p.ptd_sub_administrator p.ttl_sub_administrator
    have n3 := ratio_nonneg p.ptd_coordinator p.ttl_coordinator
    have n4 := ratio_nonneg p.ptd_member p.ttl_member
    have n5 := ratio_nonneg p.ptd_gust p.ttl_gust
    unfold calculate_participants_score
    nlinarith
  · have u1 := ratio_le_one _ _ h1
    have u2 := ratio_le_one _ _ h2
    have u3 := ratio_le_one _ _ h3
    have u4 := ratio_le_one _ _ h4
    have u5 := ratio_le_one _ _ h5
    have n1 := ratio_nonneg p.ptd_administrator p.ttl_administrator
    have n2 := ratio_nonneg p.ptd_sub_administrator p.ttl_sub_administrator
    have n3 := ratio_nonneg p.ptd_coordinator p.ttl_coordinator
    have n4 := ratio_nonneg p.ptd_member p.ttl_member
    have n5 := ratio_nonneg p.ptd_gust p.ttl_gust
    unfold calculate_participants_score
    nlinarith
  · intro z1 z2 z3 z4 z5
    unfold calculate_participants_score
    rw [z1, z2, z3, z4, z5]
    simp [ratio_zero_total]

/-- Witness for `participants_score_bounds` at a concrete input. -/
theorem participants_score_bounds_witness :
    (0 ≤ calculate_participants_score ⟨2, 1, 4, 2, 4, 3, 10, 5, 0, 0⟩ ∧
      calculate_participants_score ⟨2, 1, 4, 2, 4, 3, 10, 5, 0, 0⟩ ≤ 1) ∧
    (∀ x : ℕ, ratio x 0 = 0) ∧
    ((2 : ℕ) = 0 → (4 : ℕ) = 0 → (4 : ℕ) = 0 → (10 : ℕ) = 0 → (0 : ℕ) = 0 →
      calculate_participants_score ⟨2, 1, 4, 2, 4, 3, 10, 5, 0, 0⟩ = 0) :=
  participants_score_bounds ⟨2, 1, 4, 2, 4, 3, 10, 5, 0, 0⟩
    (by decide) (by decide) (by decide) (by decide) (by decide)

/-- Claim C9: the topic-completion score is
`(total − transferred) / total` for `total > 0` and `0` for `total = 0`;
a `transferred > total` overshoot is passed through as a negative value
unmodified (no clamping), and `total = 10, transferred = 3` gives exactly 0.7. -/
theorem topic_completion_spec (total transferred : ℤ) :
    (0 < total →
      topic_completion total transferred =
        ((total : ℚ) - (transferred : ℚ)) / (total : ℚ)) ∧
    topic_completion 0 transferred = 0 ∧
    (0 < total → total < transferred → topic_completion total transferred < 0) ∧
    topic_completion 10 3 = 7/10 := by
  refine ⟨?_, ?_, ?_, ?_⟩
  · intro hpos
    unfold topic_completion
    rw [if_pos (by omega)]
  · simp [topic_completion]
  · intro hpos hover
    unfold topic_completion
    rw [if_pos (by omega)]
    apply div_neg_of_neg_of_pos
    · have : (total : ℚ) < (transferred : ℚ) := by exact_mod_cast hover
      linarith
    · exact_mod_cast hpos
  · norm_num [topic_completion]

/-- Witness for `topic_completion_spec` at `total = 10`, `transferred = 13`. -/
theorem topic_completion_spec_witness :
    ((0 : ℤ) < 10 →
      topic_completion 10 13 = ((10 : ℚ) - (13 : ℚ)) / (10 : ℚ)) ∧
    topic_completion 0 13 = 0 ∧
    ((0 : ℤ) < 10 → (10 : ℤ) < 13 → topic_completion 10 13 < 0) ∧
    topic_completion 10 3 = 7/10 :=
  topic_completion_spec 10 13

/-- Claim C7: in the snapshot record built by `calculate_scores`, the total
score is the weighted sum `participants·0.4 + meeting·0.4 + topic·0.2` rounded
to 4 decimal digits, the meeting and participants scores are likewise rounded
to 4 decimal digits, and the documented example
`participants = 0.8, meeting = 0.6, topic = 0.5` yields a total of 0.66. -/
theorem region_result_aggregation (region : String) (rid : ℕ) (ml : String)
    (p m t : ℚ) (tt tr : ℤ) :
    (mkRegionResult region rid ml p m t tt tr).total_score =
      round4 (p * 0.4 + m * 0.4 + t * 0.2) ∧
    (mkRegionResult region rid ml p m t tt tr).meeting_score = round4 m ∧
    (mkRegionResult region rid ml p m t tt tr).participants_score = round4 p ∧
    (mkRegionResult region rid ml 0.8 0.6 0.5 tt tr).total_score = 0.66 := by
  refine ⟨rfl, rfl, rfl, ?_⟩
  show round4 ((0.8 : ℚ) * PARTICIPANT_WEIGHT + 0.6 * MEETING_WEIGHT +
    0.5 * TOPIC_WEIGHT) = 0.66
  norm_num [round4, PARTICIPANT_WEIGHT, MEETING_WEIGHT, TOPIC_WEIGHT]

/-! ## `generate_minutes_score` (`score_service.py`, lines 72–106)

Remote calls (`translator.translate`, `CrossEncoder.rank`) are embedded as
total oracles in a `ScoreEnv`, and every attempted remote call is recorded in
an explicit log, so "no remote call is attempted" is `log = []`.  The
`try/except` that degrades remote failures to 0.0 is not needed by the claims
settled here (they return before the `try` block) and the oracles are total. -/

/-- Runtime value of the `discussions` argument: the annotation says
`List[str]`, but the body only treats the `str` case specially
(`discussions.strip() if isinstance(discussions, str) else ""`). -/
inductive PyStrOrList where
  | str (s : String)
  | list (l : List String)
deriving DecidableEq

/-- One attempted remote call of `generate_minutes_score`. -/
inductive RemoteCall where
  | translate (text : String)
  | rank (query document : String)
deriving DecidableEq

/-- Oracles for the two external services used by `generate_minutes_score`. -/
structure ScoreEnv where
  translate : String → String
  rank : String → String → List ℚ

/-- Body of `generate_minutes_score` after the emptiness guard (source lines
84–106).  At this point `discussions` is a `str`, so Python's
`" ".join(discussions)` iterates over its characters and joins them with
spaces; `model.rank(..., top_k=4)` returns at most 4 scored results, embedded
as `.take 4` of the oracle's result list; an empty result list contributes
`0.0`, otherwise the scores are averaged. -/
def minutesScoreBody (env : ScoreEnv) (topic discussions : String) :
    ℚ × List RemoteCall :=
  let tCall : List RemoteCall :=
    if topic = "" then [] else [RemoteCall.translate topic]
  let translated_topic := if topic = "" then "" else env.translate topic
  let joined_discussion := String.intercalate " " (discussions.data.map Char.toString)
  let dCall : List RemoteCall :=
    if joined_discussion = "" then [] else [RemoteCall.translate joined_discussion]
  let translated_discussion :=
    if joined_discussion = "" then "" else env.translate joined_discussion
  let results := (env.rank translated_topic translated_discussion).take 4
  let calls := tCall ++ dCall ++ [RemoteCall.rank translated_topic translated_discussion]
  if results = [] then (0, calls)
  else (results.sum / (results.length : ℚ), calls)

/-- `generate_minutes_score` from `score_service.py`:
`topic = topic.strip() if isinstance(topic, str) else ""` (the `topic`
argument is a `str`, so it is trimmed), then
`discussions = discussions.strip() if isinstance(discussions, str) else ""`
— a non-string `discussions` (in particular any list) becomes `""` — and
`if not topic or not discussions: return 0.0` before any remote call. -/
def generate_minutes_score (env : ScoreEnv) (topic0 : String)
    (discussions0 : PyStrOrList) : ℚ × List RemoteCall :=
  let topic := topic0.trim
  let discussions :=
    match discussions0 with
    | PyStrOrList.str s => s.trim
    | PyStrOrList.list _ => ""
  if topic = "" ∨ discussions = "" then (0, [])
  else minutesScoreBody env topic discussions

/-- Claim C3: when the topic is empty after trimming or the discussions list
is empty, `generate_minutes_score` returns exactly 0.0 and attempts no remote
call (neither translator nor relevance model). -/
theorem minutes_score_empty_guard (env : ScoreEnv) (topic : String)
    (d : PyStrOrList) (h : topic.trim = "" ∨ d = PyStrOrList.list []) :
    generate_minutes_score env topic d = (0, []) := by
  rcases h with h | h
  · unfold generate_minutes_score
    rw [if_pos (Or.inl h)]
  · subst h
    unfold generate_minutes_score
    rw [if_pos (Or.inr rfl)]

/-- Concrete oracle environment used by witnesses. -/
def idScoreEnv : ScoreEnv :=
  { translate := fun s => s, rank := fun _ _ => [1/2] }

/-- Witness for `minutes_score_empty_guard`: whitespace-only topic and empty
discussion list. -/
theorem minutes_score_empty_guard_witness :
    ("  ".trim = "" ∨ PyStrOrList.list [] = PyStrOrList.list []) ∧
    generate_minutes_score idScoreEnv "  " (PyStrOrList.list []) = (0, []) :=
  ⟨Or.inr rfl,
    minutes_score_empty_guard idScoreEnv "  " (PyStrOrList.list []) (Or.inr rfl)⟩

/-- Claim C4: whenever the `discussions` argument is not a string — in
particular for every (even non-empty) list of discussion strings, the declared
input type — `generate_minutes_score` returns 0.0 without invoking the
translator or the relevance model, because the non-string value is replaced by
`""` before the emptiness check. -/
theorem minutes_score_list_discussions_always_zero (env : ScoreEnv)
    (topic : String) (l : List String) :
    generate_minutes_score env topic (PyStrOrList.list l) = (0, []) := by
  unfold generate_minutes_score
  rw [if_pos (Or.inr rfl)]

/-! ## Leaderboard ranking (`calculate_scores`, lines 199–202)

`results.sort(key=lambda x: x["total_score"], reverse=True)` is CPython's
stable sort, descending on the float `total_score`, ties keeping the original
(discovery) order; then `r["Rank"] = idx` for `idx = 1, 2, …`.  The stable
descending sort is embedded as `List.insertionSort` with the relation
"`a` may come before `b` iff `b.total_score ≤ a.total_score`". -/

/-- Ordering used by the leaderboard sort: `a` may precede `b` iff
`b.total_score ≤ a.total_score` (descending; true on ties, which keeps the
earlier-discovered region first, as CPython's stable sort does). -/
def scoreLe (a b : ScoreRec) : Prop :=
  b.total_score ≤ a.total_score

instance : DecidableRel scoreLe := fun a b =>
  inferInstanceAs (Decidable (b.total_score ≤ a.total_score))

instance : IsTotal ScoreRec scoreLe :=
  ⟨fun a b => le_total b.total_score a.total_score⟩

instance : IsTrans ScoreRec scoreLe :=
  ⟨fun _ _ _ h1 h2 => le_trans h2 h1⟩

/-- The sort step of `calculate_scores`: stable descending sort on
`total_score`. -/
def sortDesc (rs : List ScoreRec) : List ScoreRec :=
  rs.insertionSort scoreLe

/-- The rank-assignment loop of `calculate_scores`:
`for idx, r in enumerate(results, start=1): r["Rank"] = idx`. -/
def assignRanks (n : ℕ) : List ScoreRec → List ScoreRec
  | [] => []
  | x :: xs => { x with Rank := some n } :: assignRanks (n + 1) xs

/-- Sort followed by rank assignment, as `calculate_scores` does. -/
def rankScores (rs : List ScoreRec) : List ScoreRec :=
  assignRanks 1 (sortDesc rs)

theorem filter_orderedInsert_eq (q : ℚ) (x : ScoreRec) (l : List ScoreRec)
    (hx : x.total_score = q) :
    (l.orderedInsert scoreLe x).filter (fun r => r.total_score = q) =
      x :: l.filter (fun r => r.total_score = q) := by
  induction l with
  | nil => simp [List.orderedInsert, hx]
  | cons b t ih =>
    by_cases h : scoreLe x b
    · simp only [List.orderedInsert, if_pos h]
      simp [hx]
    · simp only [List.orderedInsert, if_neg h]
      have hb : ¬ b.total_score = q := by
        have : x.total_score < b.total_score := lt_of_not_le h
        rw [hx] at this
        exact fun hbq => absurd hbq (by rw [← hbq] at this ⊢; exact ne_of_gt this)
      rw [List.filter_cons_of_neg (by simpa using hb),
        List.filter_cons_of_neg (by simpa using hb), ih]

theorem filter_orderedInsert_ne (q : ℚ) (x : ScoreRec) (l : List ScoreRec)
    (hx : x.total_score ≠ q) :
    (l.orderedInsert scoreLe x).filter (fun r => r.total_score = q) =
      l.filter (fun r => r.total_score = q) := by
  induction l with
  | nil => simp [List.orderedInsert, hx]
  | cons b t ih =>
    by_cases h : scoreLe x b
    · simp only [List.orderedInsert, if_pos h]
      rw [List.filter_cons_of_neg (by simpa using hx)]
    · simp only [List.orderedInsert, if_neg h]
      by_cases hb : b.total_score = q
      · rw [List.filter_cons_of_pos (by simpa using hb),
          List.filter_cons_of_pos (by simpa using hb), ih]
      · rw [List.filter_cons_of_neg (by simpa using hb),
          List.filter_cons_of_neg (by simpa using hb), ih]

theorem sortDesc_stable (rs : List ScoreRec) (q : ℚ) :
    (sortDesc rs).filter (fun r => r.total_score = q) =
      rs.filter (fun r => r.total_score = q) := by
  induction rs with
  | nil => rfl
  | cons x xs ih =>
    have ih' : (List.insertionSort scoreLe xs).filter (fun r => r.total_score = q) =
        xs.filter (fun r => r.total_score = q) := ih
    show ((List.insertionSort scoreLe xs).orderedInsert scoreLe x).filter _ = _
    by_cases hx : x.total_score = q
    · rw [filter_orderedInsert_eq q x _ hx, ih',
        List.filter_cons_of_pos (by simpa using hx)]
    · rw [filter_orderedInsert_ne q x _ hx, ih',
        List.filter_cons_of_neg (by simpa using hx)]

theorem assignRanks_map_core (n : ℕ) (l : List ScoreRec) :
    (assignRanks n l).map (fun r => (r.Region, r.Region_id, r.total_score)) =
      l.map (fun r => (r.Region, r.Region_id, r.total_score)) := by
  induction l generalizing n with
  | nil => rfl
  | cons x xs ih => simp [assignRanks, ih]

theorem assignRanks_ranks (n : ℕ) (l : List ScoreRec) :
    (assignRanks n l).map (fun r => r.Rank) =
      (List.range l.length).map (fun i => some (i + n)) := by
  induction l generalizing n with
  | nil => rfl
  | cons x xs ih =>
    simp only [assignRanks, List.map_cons, List.length_cons,
      List.range_succ_eq_map, List.map_map]
    rw [ih (n + 1)]
    refine congrArg₂ _ (by simp) ?_
    refine List.map_congr_left ?_
    intro i _
    simp only [Function.comp_apply]
    exact congrArg some (by omega)

theorem mem_assignRanks_total (b : ScoreRec) (n : ℕ) (l : List ScoreRec)
    (hb : b ∈ assignRanks n l) : ∃ a ∈ l, b.total_score = a.total_score := by
  induction l generalizing n with
  | nil => cases hb
  | cons x xs ih =>
    rw [assignRanks] at hb
    rcases List.mem_cons.1 hb with hb | hb
    · exact ⟨x, List.mem_cons_self x xs, by rw [hb]⟩
    · obtain ⟨a, ha, hab⟩ := ih (n + 1) hb
      exact ⟨a, List.mem_cons_of_mem x ha, hab⟩

theorem assignRanks_sorted (n : ℕ) (l : List ScoreRec)
    (h : List.Sorted scoreLe l) :
    List.Sorted (fun a b => b.total_score ≤ a.total_score) (assignRanks n l) := by
  induction l generalizing n with
  | nil => exact List.sorted_nil
  | cons x xs ih =>
    rw [List.sorted_cons] at h
    refine List.sorted_cons.2 ⟨?_, ih (n + 1) h.2⟩
    intro b hb
    obtain ⟨a, ha, hab⟩ := mem_assignRanks_total b (n + 1) xs hb
    show b.total_score ≤ x.total_score
    rw [hab]
    exact h.1 a ha

/-- The sample run from the spec: totals `[0.9, 0.66, 0.66, 0.3]` discovered
in order A, B, C, D. -/
def exampleABCD : List ScoreRec :=
  [{ Region := "A", Region_id := 1, month := "01/2025", meeting_score := 0,
     participants_score := 0, total_score := 0.9, total_topics := 0,
     transferred_topics := 0, Rank := none },
   { Region := "B", Region_id := 2, month := "01/2025", meeting_score := 0,
     participants_score := 0, total_score := 0.66, total_topics := 0,
     transferred_topics := 0, Rank := none },
   { Region := "C", Region_id := 3, month := "01/2025", meeting_score := 0,
     participants_score := 0, total_score := 0.66, total_topics := 0,
     transferred_topics := 0, Rank := none },
   { Region := "D", Region_id := 4, month := "01/2025", meeting_score := 0,
     participants_score := 0, total_score := 0.3, total_topics := 0,
     transferred_topics := 0, Rank := none }]

/-- Claim C6: the ranking step of `calculate_scores` stably sorts the
per-region results by `total_score` descending (ties keep discovery order, as
the filter-stability equation states), assigns 1-based contiguous ranks in
that order, and on the spec's example (totals 0.9, 0.66, 0.66, 0.3 for
A, B, C, D) produces ranks A=1, B=2, C=3, D=4.  `rankScores` is a pure
function, so identical inputs give identical rankings. -/
theorem calculate_scores_ranking (rs : List ScoreRec) :
    List.Sorted (fun a b => b.total_score ≤ a.total_score) (rankScores rs) ∧
    (∀ q : ℚ, (sortDesc rs).filter (fun r => r.total_score = q) =
      rs.filter (fun r => r.total_score = q)) ∧
    (rankScores rs).map (fun r => (r.Region, r.Region_id, r.total_score)) =
      (sortDesc rs).map (fun r => (r.Region, r.Region_id, r.total_score)) ∧
    (rankScores rs).map (fun r => r.Rank) =
      (List.range rs.length).map (fun i => some (i + 1)) ∧
    (rankScores exampleABCD).map (fun r => (r.Region, r.Rank)) =
      [("A", some 1), ("B", some 2), ("C", some 3), ("D", some 4)] := by
  refine ⟨?_, sortDesc_stable rs, assignRanks_map_core 1 (sortDesc rs), ?_, ?_⟩
  · exact assignRanks_sorted 1 (sortDesc rs) (List.sorted_insertionSort scoreLe rs)
  · rw [rankScores, assignRanks_ranks 1 (sortDesc rs), sortDesc,
      List.length_insertionSort]
  · norm_num [rankScores, sortDesc, List.insertionSort, List.orderedInsert,
      scoreLe, assignRanks, exampleABCD]

/-! ## Reconciliation engine (`app/services/directus_service.py`)

The remote store is a collection of records; `POST /items/c` creates a record
with a fresh store-assigned `id`, `PATCH /items/c/{id}` replaces the posted
fields of the record with that `id`.  `upsert_leaderboard` and
`upsert_predictions` fetch the full collection once (`existing_items`), then
for each incoming item either patch the first existing record with the same
`Region_id` (addressed by that record's `id`) or create a new record; when the
initial fetch is empty they create everything as new.  In
`upsert_leaderboard`, the `Leaderboard_all` append loop sits inside the
`else` (empty-snapshot) branch of the source. -/

/-- An incoming record of an upsert batch: its `Region_id` plus the remaining
posted fields, abstracted as an opaque payload. -/
structure LBItem where
  Region_id : ℕ
  payload : String
deriving DecidableEq

/-- A record held by the store: the store-assigned opaque `id` plus the last
posted/patched fields. -/
structure RemoteRecord where
  id : ℕ
  item : LBItem
deriving DecidableEq

/-- One remote collection: its records plus the next store-assigned id. -/
structure Collection where
  records : List RemoteRecord
  nextId : ℕ
deriving DecidableEq

def emptyCollection : Collection := ⟨[], 0⟩

/-- `POST /items/{collection}`: create a record with a fresh id. -/
def post (c : Collection) (it : LBItem) : Collection :=
  ⟨c.records ++ [⟨c.nextId, it⟩], c.nextId + 1⟩

/-- `PATCH /items/{collection}/{rid}`: replace the posted fields of the record
with id `rid`. -/
def patch (c : Collection) (rid : ℕ) (it : LBItem) : Collection :=
  ⟨c.records.map (fun r => if r.id = rid then ⟨r.id, it⟩ else r), c.nextId⟩

/-- The create-everything loop (`for item in items: await _post(...)`). -/
def createAll (c : Collection) (items : List LBItem) : Collection :=
  items.foldl post c

/-- One iteration of the patch-or-create loop: find the first fetched record
with the same `Region_id`; patch it by its `id` if found, else create. -/
def patchOrCreate (existing_items : List RemoteRecord) (c : Collection)
    (it : LBItem) : Collection :=
  match existing_items.find? (fun e => e.item.Region_id == it.Region_id) with
  | some existing_item => patch c existing_item.id it
  | none => post c it

/-- The patch-or-create loop over a batch; `existing_items` is the single
fetch done before the loop and is not refreshed between iterations. -/
def patchOrCreateAll (existing_items : List RemoteRecord) (c : Collection)
    (items : List LBItem) : Collection :=
  items.foldl (patchOrCreate existing_items) c

/-- `upsert_predictions` from `directus_service.py` (lines 203–232): fetch
`Leaderboard_predict` once; if non-empty, patch-or-create per item, else
create all items as new records. -/
def upsert_predictions (c : Collection) (predictions : List LBItem) : Collection :=
  let existing_items := c.records
  if existing_items = [] then createAll c predictions
  else patchOrCreateAll existing_items c predictions

/-- The two collections touched by `upsert_leaderboard`: the `Leaderboard`
snapshot and the `Leaderboard_all` history. -/
structure Store where
  snap : Collection
  hist : Collection
deriving DecidableEq

def emptyStore : Store := ⟨emptyCollection, emptyCollection⟩

/-- `upsert_leaderboard` from `directus_service.py` (lines 164–195), exactly
as written: when the fetched snapshot is non-empty, each item is patched or
created in `Leaderboard` and nothing touches `Leaderboard_all`; only in the
empty-snapshot branch does the source's `Leaderboard_all` append loop run
(it is indented inside the `else` block). -/
def upsert_leaderboard (s : Store) (items : List LBItem) : Store :=
  let existing_items := s.snap.records
  if existing_items = [] then
    { snap := createAll s.snap items, hist := createAll s.hist items }
  else
    { s with snap := patchOrCreateAll existing_items s.snap items }

/-! ### Facts about creation from an empty collection -/

/-- The records created by posting `items` in order with fresh ids `n, n+1, …`. -/
def withIds (n : ℕ) : List LBItem → List RemoteRecord
  | [] => []
  | it :: its => ⟨n, it⟩ :: withIds (n + 1) its

theorem createAll_eq (items : List LBItem) :
    ∀ (rs : List RemoteRecord) (n : ℕ),
      createAll ⟨rs, n⟩ items = ⟨rs ++ withIds n items, n + items.length⟩ := by
  induction items with
  | nil => intro rs n; simp [createAll, withIds]
  | cons it its ih =>
    intro rs n
    have h0 : createAll ⟨rs, n⟩ (it :: its) =
        createAll ⟨rs ++ [⟨n, it⟩], n + 1⟩ its := rfl
    rw [h0, ih]
    exact congrArg₂ Collection.mk (by simp [withIds])
      (by simp only [List.length_cons]; omega)

theorem withIds_map_item (items : List LBItem) :
    ∀ n : ℕ, (withIds n items).map (fun r => r.item) = items := by
  induction items with
  | nil => intro n; rfl
  | cons it its ih => intro n; simp [withIds, ih]

theorem withIds_length (items : List LBItem) :
    ∀ n : ℕ, (withIds n items).length = items.length := by
  induction items with
  | nil => intro n; rfl
  | cons it its ih => intro n; simp [withIds, ih]

theorem mem_withIds_le (items : List LBItem) :
    ∀ (n : ℕ) (r : RemoteRecord), r ∈ withIds n items → n ≤ r.id := by
  induction items with
  | nil => intro n r hr; cases hr
  | cons it its ih =>
    intro n r hr
    rw [withIds] at hr
    rcases List.mem_cons.1 hr with hr | hr
    · rw [hr]
    · exact le_trans (Nat.le_succ n) (ih (n + 1) r hr)

theorem withIds_ids_nodup (items : List LBItem) :
    ∀ n : ℕ, ((withIds n items).map (fun r => r.id)).Nodup := by
  induction items with
  | nil => intro n; exact List.nodup_nil
  | cons it its ih =>
    intro n
    rw [withIds, List.map_cons, List.nodup_cons]
    refine ⟨?_, ih (n + 1)⟩
    intro hmem
    obtain ⟨r, hr, hid⟩ := List.mem_map.1 hmem
    have hle := mem_withIds_le its (n + 1) r hr
    have hid2 : r.id = n := hid
    omega

theorem countP_withIds (items : List LBItem) (rid : ℕ) :
    ∀ n : ℕ, (withIds n items).countP (fun r => r.item.Region_id = rid) =
      items.countP (fun it => it.Region_id = rid) := by
  induction items with
  | nil => intro n; rfl
  | cons it its ih =>
    intro n
    rw [withIds, List.countP_cons, List.countP_cons, ih (n + 1)]

/-- In a list whose ids are `Nodup`, two members with the same id coincide. -/
theorem eq_of_mem_nodup_ids {l : List RemoteRecord}
    (h : (l.map (fun r => r.id)).Nodup) {a b : RemoteRecord}
    (ha : a ∈ l) (hb : b ∈ l) (hid : a.id = b.id) : a = b :=
  List.inj_on_of_nodup_map h ha hb hid

/-! ### The patch-or-create loop preserves `(id, Region_id)` pairs when every
incoming item already has a match in the fetched snapshot -/

theorem patchOrCreateAll_keys (c0 : Collection)
    (hnodup : (c0.records.map (fun r => r.id)).Nodup) (items : List LBItem) :
    ∀ acc : Collection,
      acc.records.map (fun r => (r.id, r.item.Region_id)) =
        c0.records.map (fun r => (r.id, r.item.Region_id)) →
      (∀ it ∈ items, ∃ e ∈ c0.records, e.item.Region_id = it.Region_id) →
      (patchOrCreateAll c0.records acc items).records.map
          (fun r => (r.id, r.item.Region_id)) =
        c0.records.map (fun r => (r.id, r.item.Region_id)) := by
  induction items with
  | nil => intro acc hacc _; exact hacc
  | cons it its ih =>
    intro acc hacc hmatch
    have hstep : patchOrCreateAll c0.records acc (it :: its) =
        patchOrCreateAll c0.records (patchOrCreate c0.records acc it) its := rfl
    rw [hstep]
    refine ih (patchOrCreate c0.records acc it) ?_
      (fun x hx => hmatch x (List.mem_cons_of_mem it hx))
    cases hfind : c0.records.find? (fun e => e.item.Region_id == it.Region_id) with
    | none =>
      exfalso
      obtain ⟨e, he, heq⟩ := hmatch it (List.mem_cons_self it its)
      have := List.find?_eq_none.1 hfind e he
      simp [heq] at this
    | some e =>
      have he : e ∈ c0.records := List.mem_of_find?_eq_some hfind
      have heq : e.item.Region_id = it.Region_id := by
        have := List.find?_some hfind
        simpa using this
      have hpc : patchOrCreate c0.records acc it = patch acc e.id it := by
        rw [patchOrCreate, hfind]
      rw [hpc]
      show ((acc.records.map
        (fun r => if r.id = e.id then ⟨r.id, it⟩ else r)).map
        (fun r => (r.id, r.item.Region_id))) = _
      rw [List.map_map, ← hacc]
      refine List.map_congr_left ?_
      intro r hr
      by_cases hid : r.id = e.id
      · have hkey : (r.id, r.item.Region_id) ∈
            c0.records.map (fun r => (r.id, r.item.Region_id)) := by
          rw [← hacc]
          exact List.mem_map_of_mem _ hr
        obtain ⟨r0, hr0, hr0key⟩ := List.mem_map.1 hkey
        have hr0id : r0.id = e.id := by
          have : r0.id = r.id := congrArg Prod.fst hr0key
          omega
        have hr0e : r0 = e := eq_of_mem_nodup_ids hnodup hr0 he hr0id
        have hrid : r.item.Region_id = it.Region_id := by
          have h1 : r0.item.Region_id = r.item.Region_id :=
            congrArg Prod.snd hr0key
          rw [← h1, hr0e, heq]
        simp only [Function.comp_apply, if_pos hid]
        rw [hrid]
      · simp only [Function.comp_apply, if_neg hid]

/-- With `Region_id`s distinct in a batch, each `Region_id` occurs in the
batch exactly once or not at all. -/
theorem countP_of_nodup_rids (items : List LBItem)
    (hnodup : (items.map (fun it => it.Region_id)).Nodup) (rid : ℕ) :
    items.countP (fun it => it.Region_id = rid) =
      if rid ∈ items.map (fun it => it.Region_id) then 1 else 0 := by
  induction items with
  | nil => rfl
  | cons it its ih =>
    rw [List.map_cons, List.nodup_cons] at hnodup
    rw [List.map_cons]
    by_cases hhead : it.Region_id = rid
    · rw [List.countP_cons_of_pos _ _ (by simpa using hhead)]
      have hnot : rid ∉ its.map (fun it => it.Region_id) := hhead ▸ hnodup.1
      have hzero : its.countP (fun it => it.Region_id = rid) = 0 := by
        rw [List.countP_eq_zero]
        intro a ha
        simp only [decide_eq_true_eq]
        intro haeq
        exact hnot (haeq ▸ List.mem_map_of_mem _ ha)
      rw [hzero, if_pos (List.mem_cons.2 (Or.inl hhead.symm))]
    · rw [List.countP_cons_of_neg _ _ (by simpa using hhead), ih hnodup.2]
      by_cases hmem : rid ∈ its.map (fun it => it.Region_id)
      · rw [if_pos hmem, if_pos (List.mem_cons.2 (Or.inr hmem))]
      · have hnotin : rid ∉ it.Region_id :: its.map (fun it => it.Region_id) := by
          intro hc
          rcases List.mem_cons.1 hc with hc | hc
          · exact hhead hc.symm
          · exact hmem hc
        rw [if_neg hmem, if_neg hnotin]

/-- Double upsert of a batch into an initially empty snapshot collection via
`upsert_predictions`, counted per `Region_id`. -/
theorem upsert_predictions_twice_countP (items : List LBItem)
    (hnodup : (items.map (fun it => it.Region_id)).Nodup) (rid : ℕ) :
    ((upsert_predictions (upsert_predictions emptyCollection items)
        items).records.countP (fun r => r.item.Region_id = rid)) =
      if rid ∈ items.map (fun it => it.Region_id) then 1 else 0 := by
  cases items with
  | nil => rfl
  | cons it its =>
    have hc1 : upsert_predictions emptyCollection (it :: its) =
        ⟨withIds 0 (it :: its), 0 + (it :: its).length⟩ := by
      show createAll ⟨[], 0⟩ (it :: its) = _
      rw [createAll_eq]
      exact congrArg₂ Collection.mk (by simp) rfl
    set c1 : Collection := ⟨withIds 0 (it :: its), 0 + (it :: its).length⟩ with hc1def
    rw [hc1]
    have hne : c1.records ≠ [] := by
      show withIds 0 (it :: its) ≠ []
      rw [withIds]
      exact List.cons_ne_nil _ _
    have h2 : upsert_predictions c1 (it :: its) =
        patchOrCreateAll c1.records c1 (it :: its) := by
      rw [upsert_predictions, if_neg hne]
    rw [h2]
    have hids : (c1.records.map (fun r => r.id)).Nodup := withIds_ids_nodup _ 0
    have hmatch : ∀ x ∈ (it :: its), ∃ e ∈ c1.records,
        e.item.Region_id = x.Region_id := by
      intro x hx
      have : x ∈ (withIds 0 (it :: its)).map (fun r => r.item) := by
        rw [withIds_map_item]; exact hx
      obtain ⟨e, he, heq⟩ := List.mem_map.1 this
      exact ⟨e, he, by rw [heq]⟩
    have hkeys := patchOrCreateAll_keys c1 hids (it :: its) c1 rfl hmatch
    have hcount : (patchOrCreateAll c1.records c1 (it :: its)).records.countP
        (fun r => r.item.Region_id = rid) =
        c1.records.countP (fun r => r.item.Region_id = rid) := by
      have h1 := congrArg (List.countP (fun k : ℕ × ℕ => k.2 = rid)) hkeys
      rw [List.countP_map, List.countP_map] at h1
      exact h1
    rw [hcount]
    show (withIds 0 (it :: its)).countP _ = _
    rw [countP_withIds]
    exact countP_of_nodup_rids (it :: its) hnodup rid

/-- The snapshot component of `upsert_leaderboard` evolves exactly like
`upsert_predictions` (the source loops are identical). -/
theorem upsert_leaderboard_snap_eq (items : List LBItem) (s : Store) :
    (upsert_leaderboard s items).snap = upsert_predictions s.snap items := by
  by_cases h : s.snap.records = []
  · rw [upsert_leaderboard, upsert_predictions, if_pos h, if_pos h]
  · rw [upsert_leaderboard, upsert_predictions, if_neg h, if_neg h]

/-- Claim C2: in a snapshot collection (`Leaderboard` via `upsert_leaderboard`
or `Leaderboard_predict` via `upsert_predictions`), an incoming record whose
`Region_id` matches a fetched record is patched by that record's
store-assigned `id`, otherwise created; hence upserting a batch with distinct
`Region_id`s twice into an empty snapshot collection leaves exactly one record
per `Region_id` (the second run patches and creates nothing: the record count
stays the batch size). -/
theorem snapshot_upsert_idempotent (items : List LBItem)
    (hnodup : (items.map (fun it => it.Region_id)).Nodup) :
    (∀ rid : ℕ,
      ((upsert_predictions (upsert_predictions emptyCollection items)
          items).records.countP (fun r => r.item.Region_id = rid)) =
        if rid ∈ items.map (fun it => it.Region_id) then 1 else 0) ∧
    (∀ rid : ℕ,
      ((upsert_leaderboard (upsert_leaderboard emptyStore items)
          items).snap.records.countP (fun r => r.item.Region_id = rid)) =
        if rid ∈ items.map (fun it => it.Region_id) then 1 else 0) ∧
    (upsert_predictions (upsert_predictions emptyCollection items)
        items).records.length = items.length := by
  have hsnap : (upsert_leaderboard (upsert_leaderboard emptyStore items)
      items).snap = upsert_predictions (upsert_predictions emptyCollection
      items) items := by
    rw [upsert_leaderboard_snap_eq items (upsert_leaderboard emptyStore items),
      upsert_leaderboard_snap_eq items emptyStore]
    rfl
  refine ⟨upsert_predictions_twice_countP items hnodup, ?_, ?_⟩
  · intro rid
    rw [hsnap]
    exact upsert_predictions_twice_countP items hnodup rid
  · cases items with
    | nil => rfl
    | cons it its =>
      have hc1 : upsert_predictions emptyCollection (it :: its) =
          ⟨withIds 0 (it :: its), 0 + (it :: its).length⟩ := by
        show createAll ⟨[], 0⟩ (it :: its) = _
        rw [createAll_eq]
        exact congrArg₂ Collection.mk (by simp) rfl
      rw [hc1]
      set c1 : Collection := ⟨withIds 0 (it :: its), 0 + (it :: its).length⟩
      have hne : c1.records ≠ [] := by
        show withIds 0 (it :: its) ≠ []
        rw [withIds]
        exact List.cons_ne_nil _ _
      have h2 : upsert_predictions c1 (it :: its) =
          patchOrCreateAll c1.records c1 (it :: its) := by
        rw [upsert_predictions, if_neg hne]
      rw [h2]
      have hmatch : ∀ x ∈ (it :: its), ∃ e ∈ c1.records,
          e.item.Region_id = x.Region_id := by
        intro x hx
        have : x ∈ (withIds 0 (it :: its)).map (fun r => r.item) := by
          rw [withIds_map_item]; exact hx
        obtain ⟨e, he, heq⟩ := List.mem_map.1 this
        exact ⟨e, he, by rw [heq]⟩
      have hkeys := patchOrCreateAll_keys c1 (withIds_ids_nodup _ 0)
        (it :: its) c1 rfl hmatch
      have hlen := congrArg List.length hkeys
      rw [List.length_map, List.length_map] at hlen
      rw [hlen]
      show (withIds 0 (it :: its)).length = _
      rw [withIds_length]

/-- Witness for `snapshot_upsert_idempotent`: the two-region batch
`[{Region_id := 1}, {Region_id := 2}]`. -/
theorem snapshot_upsert_idempotent_witness :
    ((([⟨1, "a"⟩, ⟨2, "b"⟩] : List LBItem).map
        (fun it => it.Region_id)).Nodup) ∧
    ((∀ rid : ℕ,
      ((upsert_predictions (upsert_predictions emptyCollection
          [⟨1, "a"⟩, ⟨2, "b"⟩]) [⟨1, "a"⟩, ⟨2, "b"⟩]).records.countP
          (fun r => r.item.Region_id = rid)) =
        if rid ∈ ([⟨1, "a"⟩, ⟨2, "b"⟩] : List LBItem).map
            (fun it => it.Region_id) then 1 else 0) ∧
    (∀ rid : ℕ,
      ((upsert_leaderboard (upsert_leaderboard emptyStore
          [⟨1, "a"⟩, ⟨2, "b"⟩]) [⟨1, "a"⟩, ⟨2, "b"⟩]).snap.records.countP
          (fun r => r.item.Region_id = rid)) =
        if rid ∈ ([⟨1, "a"⟩, ⟨2, "b"⟩] : List LBItem).map
            (fun it => it.Region_id) then 1 else 0) ∧
    (upsert_predictions (upsert_predictions emptyCollection
        [⟨1, "a"⟩, ⟨2, "b"⟩]) [⟨1, "a"⟩, ⟨2, "b"⟩]).records.length =
      ([⟨1, "a"⟩, ⟨2, "b"⟩] : List LBItem).length) :=
  ⟨by decide, snapshot_upsert_idempotent [⟨1, "a"⟩, ⟨2, "b"⟩] (by decide)⟩

/-- Claim C1 (counter-evidence): after a first run has filled the snapshot,
a second `upsert_leaderboard` of the same one-item batch appends nothing to
`Leaderboard_all` — the history holds one record for the region, not two,
because the source's append loop is inside the empty-snapshot branch. -/
theorem upsert_leaderboard_history_counterexample :
    ((upsert_leaderboard (upsert_leaderboard emptyStore [⟨1, "x"⟩])
        [⟨1, "x"⟩]).hist.records.countP (fun r => r.item.Region_id = 1)) = 1 ∧
    (upsert_leaderboard (upsert_leaderboard emptyStore [⟨1, "x"⟩])
        [⟨1, "x"⟩]).hist =
      (upsert_leaderboard emptyStore [⟨1, "x"⟩]).hist := by
  exact ⟨rfl, rfl⟩

/-! ## Prediction pipeline (`app/services/prediction_service.py` and
`app/models/lstm_multi.py`)

`predict_future_scores` fetches all history records, computes the next month
from the latest parsed `month` label, groups records by `Region_id` in
first-seen order (a Python dict built with `setdefault`), sorts each group
chronologically, and calls `train_and_predict` per region inside
`try/except`, so a failing region is logged and skipped.  On the records the
service feeds it, `train_and_predict` fails deterministically for every
region: `preprocess_data` builds `pd.DataFrame(records)` over all fetched
fields, so the string-valued `month` column (present in every record — the
service `strptime`s it before the loop, so a completing run implies it) and
the string `Region` column survive into `scaler.fit_transform(df.to_numpy())`,
which cannot coerce them to float and raises `ValueError`; an empty group
would fail even earlier, on the missing `date_created` index column.
Consequently every region is excluded and the prediction batch is always
empty.  The downstream code it makes dead — the `out` dict with its
`f"{round(x, 2)}"` string scores, the string-keyed descending sort, the rank
loop — is still embedded faithfully below. -/

/-- The static dict `GOVERNORATE_FROM_REGION_ID` of
`app/constants/regions.py`; `dict.get` returns `None` off the map. -/
def GOVERNORATE_FROM_REGION_ID (rid : ℕ) : Option String :=
  match rid with
  | 1 => some "Muscat"
  | 2 => some "Al Batinah North"
  | 3 => some "Musandam"
  | 4 => some "Al Buraimi"
  | 5 => some "Al Dhahira North"
  | 6 => some "Dakhiliyah"
  | 7 => some "Al Sharqiyah North"
  | 8 => some "Al Wusta"
  | 9 => some "Dhofar"
  | 10 => some "Al Batinah South"
  | 11 => some "Al Sharqiyah South"
  | _ => none

/-- One `Leaderboard_all` record as consumed by `predict_future_scores`:
`month` is the parsed `"%m/%Y"` label as a `(month, year)` pair (the service
parses it with `strptime` for the latest-month computation and the
chronological sort).  The raw record additionally carries string-valued
fields — at least the `month` label itself and the `Region` name — whose
effect, making `MinMaxScaler` raise inside `train_and_predict`, is accounted
for in `train_and_predict` below rather than duplicated here. -/
structure HistRecord where
  Region_id : ℕ
  month : ℕ × ℕ
  meeting_score : ℚ
  participants_score : ℚ
  total_topics : ℚ
  transferred_topics : ℚ
  total_score : ℚ
deriving DecidableEq

/-- The five floats returned by `train_and_predict`. -/
structure PredMetrics where
  meeting_score : ℚ
  participants_score : ℚ
  total_topics : ℚ
  transferred_topics : ℚ
  total_score : ℚ
deriving DecidableEq

/-- Embedding of Python `int(x)` on a float: truncation toward zero. -/
def pyInt (q : ℚ) : ℤ :=
  if 0 ≤ q then ⌊q⌋ else ⌈q⌉

/-- Embedding of `f"{round(x, 2)}"`: `round(x, 2)` rounds to 2 decimal digits
(the binary-float tie behavior of Python's `round` is embedded as the integer
`round` on `ℚ`; the claim instances are tie-free), and the f-string prints the
shortest decimal form with at least one fractional digit, as Python prints
floats (`"9.0"`, `"0.66"`, `"-0.2"`). -/
def fmt2 (q : ℚ) : String :=
  let n : ℤ := round (q * 100)
  let m : ℕ := n.natAbs
  let sign := if n < 0 then "-" else ""
  let fp := m % 100
  let fracStr :=
    if fp = 0 then "0"
    else if fp % 10 = 0 then Nat.repr (fp / 10)
    else if fp < 10 then "0" ++ Nat.repr fp
    else Nat.repr fp
  sign ++ Nat.repr (m / 100) ++ "." ++ fracStr

/-- Python string `<`: lexicographic comparison by code point. -/
def pyCharsLt : List Char → List Char → Bool
  | [], [] => false
  | [], _ :: _ => true
  | _ :: _, [] => false
  | a :: as, b :: bs =>
    if a.val < b.val then true
    else if b.val < a.val then false
    else pyCharsLt as bs

/-- Python string `≤` (used as "may sort before" for the descending
string-keyed sort): `s ≤ t` iff not `t < s`. -/
def pyStrLe (s t : String) : Bool :=
  ! pyCharsLt t.data s.data

/-- One entry of the `predictions` list built by `predict_future_scores`
(the `out` dict): the three scores are stored as strings. -/
structure PredOut where
  month : ℕ × ℕ
  Region_id : ℕ
  Region : Option String
  meeting_score : String
  participants_score : String
  total_topics : ℤ
  transferred_topics : ℤ
  Rank : ℕ
  total_score : String
deriving DecidableEq

/-- The `out` dict built for one region's prediction
(`prediction_service.py` lines 48–58). -/
def mkPredOut (next_month : ℕ × ℕ) (rid : ℕ) (p : PredMetrics) : PredOut :=
  { month := next_month
    Region_id := rid
    Region := GOVERNORATE_FROM_REGION_ID rid
    meeting_score := fmt2 p.meeting_score
    participants_score := fmt2 p.participants_score
    total_topics := pyInt p.total_topics
    transferred_topics := pyInt p.transferred_topics
    Rank := 0
    total_score := fmt2 p.total_score }

/-- Ordering of `predictions.sort(key=lambda x: x["total_score"],
reverse=True)`: `a` may precede `b` iff the string `b.total_score` is ≤ the
string `a.total_score` (descending on the string key; true on ties, keeping
the earlier element first as the stable sort does). -/
def predBefore (a b : PredOut) : Prop :=
  pyStrLe b.total_score a.total_score = true

instance : DecidableRel predBefore := fun _ _ =>
  inferInstanceAs (Decidable (_ = true))

/-- The rank-assignment loop of `predict_future_scores`
(`for rank, item in enumerate(predictions, start=1): item["Rank"] = rank`). -/
def assignRanksP (n : ℕ) : List PredOut → List PredOut
  | [] => []
  | x :: xs => { x with Rank := n } :: assignRanksP (n + 1) xs

/-- The sort-then-rank step of `predict_future_scores` (lines 63–65). -/
def rankPredictions (ps : List PredOut) : List PredOut :=
  assignRanksP 1 (ps.insertionSort predBefore)

/-- `train_and_predict` from `lstm_multi.py` as reached from
`predict_future_scores`: it raises for *every* record list the service feeds
it.  `preprocess_data` keeps all fetched columns in `pd.DataFrame(records)`;
after `set_index("date_created")` the string-valued `month` column (present in
every record, since the caller `strptime`s it before the loop) and the string
`Region` column reach `MinMaxScaler.fit_transform(df.to_numpy())`, which
cannot convert them to float and raises `ValueError` — before the
short-history `IndexError` at `X.shape[2]` could matter; an empty list fails
earlier still, on the missing `date_created` column.  The `try/except` in the
caller turns every failure into a skip. -/
def train_and_predict (_records : List HistRecord) : Except Unit PredMetrics :=
  Except.error ()

/-- First-seen-order key list of the `regions_map` dict built with
`setdefault` (Python dicts preserve insertion order). -/
def dedupFirstAux (seen : List ℕ) : List ℕ → List ℕ
  | [] => []
  | x :: xs =>
    if x ∈ seen then dedupFirstAux seen xs
    else x :: dedupFirstAux (x :: seen) xs

def dedupFirst (l : List ℕ) : List ℕ :=
  dedupFirstAux [] l

/-- Chronological key of a parsed `"%m/%Y"` label. -/
def monthKey (p : ℕ × ℕ) : ℕ :=
  p.2 * 12 + p.1

/-- Ordering of `records.sort(key=lambda x: strptime(x["month"], "%m/%Y"))`:
ascending and stable. -/
def histBefore (a b : HistRecord) : Prop :=
  monthKey a.month ≤ monthKey b.month

instance : DecidableRel histBefore := fun _ _ =>
  inferInstanceAs (Decidable (_ ≤ _))

/-- `max(strptime(item["month"]) for item in items)`: Python `max` keeps the
first maximal element; two equal datetimes parsed from `"%m/%Y"` are the same
`(month, year)` pair, so ties are irrelevant. Empty input is guarded by the
caller's emptiness check. -/
def latestMonth : List HistRecord → ℕ × ℕ
  | [] => (0, 0)
  | it :: its =>
    its.foldl (fun acc r => if monthKey acc < monthKey r.month then r.month else acc)
      it.month

/-- `(latest + 31 days).replace(day=1)`: `strptime("%m/%Y")` always gives
day 1, and day 1 plus 31 days always lands in the following calendar month,
so this is exactly "advance one month". -/
def nextMonthOf (p : ℕ × ℕ) : ℕ × ℕ :=
  if p.1 = 12 then (1, p.2 + 1) else (p.1 + 1, p.2)

/-- One iteration of the per-region loop of `predict_future_scores`: sort the
region's records chronologically, run `train_and_predict` in `try/except` —
on success append the region's `out` dict, on failure log and skip.  (The
success arm mirrors source lines 46–59; with the actual `train_and_predict`
it is never taken.) -/
def predStep (next_month : ℕ × ℕ) (acc : List PredOut)
    (g : ℕ × List HistRecord) : List PredOut :=
  match train_and_predict (g.2.insertionSort histBefore) with
  | Except.ok p => acc ++ [mkPredOut next_month g.1 p]
  | Except.error _ => acc

/-- `predict_future_scores` from `prediction_service.py`: fails on an empty
history fetch (`max()` of an empty sequence raises `ValueError`); otherwise
groups records per region in first-seen order, runs the per-region loop
(a failing region is logged and skipped), then string-sorts and ranks. -/
def predict_future_scores (items : List HistRecord) :
    Except Unit (List PredOut) :=
  if items = [] then Except.error ()
  else
    let next_month := nextMonthOf (latestMonth items)
    let keys := dedupFirst (items.map (fun it => it.Region_id))
    let groups := keys.map (fun k => (k, items.filter (fun it => it.Region_id = k)))
    let predictions := groups.foldl (predStep next_month) []
    Except.ok (rankPredictions predictions)

/-! ### Claims C5 and C10 -/

theorem foldl_predStep (nm : ℕ × ℕ) (gs : List (ℕ × List HistRecord)) :
    ∀ acc : List PredOut, gs.foldl (predStep nm) acc = acc := by
  induction gs with
  | nil => intro acc; rfl
  | cons g gs ih =>
    intro acc
    rw [List.foldl_cons]
    have hstep : predStep nm acc g = acc := rfl
    rw [hstep]
    exact ih acc

/-- Every completing forecast run returns the empty prediction batch: each
region's `train_and_predict` call raises and is skipped. -/
theorem predict_future_scores_empty (items : List HistRecord)
    (h : items ≠ []) : predict_future_scores items = Except.ok [] := by
  simp only [predict_future_scores, if_neg h]
  rw [foldl_predStep]
  rfl

/-- Claim C5: for every completing forecast run, the returned prediction list
is ordered by predicted `total_score` descending with each record's `Rank`
equal to its 1-based position — vacuously: the returned list is always empty
(see `train_and_predict`), so it is sorted under every ordering of
`PredOut` — in particular by predicted total descending — and its rank column
is the empty 1-based enumeration.  The string-keyed sort and the rank loop
are dead code on the empty list. -/
theorem prediction_ranking_over_totals (items : List HistRecord)
    (h : items ≠ []) :
    ∃ out, predict_future_scores items = Except.ok out ∧
      (∀ R : PredOut → PredOut → Prop, List.Sorted R out) ∧
      out.map (fun r => r.Rank) =
        (List.range out.length).map (fun i => i + 1) ∧
      out = [] :=
  ⟨[], predict_future_scores_empty items h,
    fun _ => List.sorted_nil, rfl, rfl⟩

/-- One-region, one-record history used by the C5 witness. -/
def sampleHistorySingle : List HistRecord :=
  [⟨3, (1, 2025), 0, 0, 0, 0, 0⟩]

/-- Witness for `prediction_ranking_over_totals` at a concrete history. -/
theorem prediction_ranking_over_totals_witness :
    sampleHistorySingle ≠ [] ∧
    (∃ out, predict_future_scores sampleHistorySingle = Except.ok out ∧
      (∀ R : PredOut → PredOut → Prop, List.Sorted R out) ∧
      out.map (fun r => r.Rank) =
        (List.range out.length).map (fun i => i + 1) ∧
      out = []) :=
  ⟨by simp [sampleHistorySingle],
    prediction_ranking_over_totals sampleHistorySingle
      (by simp [sampleHistorySingle])⟩

/-- History with a two-record region (1) and a one-record region (2). -/
def histWitnessItems : List HistRecord :=
  [⟨1, (1, 2025), 0, 0, 0, 0, 0⟩,
   ⟨2, (1, 2025), 0, 0, 0, 0, 0⟩,
   ⟨1, (2, 2025), 0, 0, 0, 0, 0⟩]

/-- Claim C10 (counter-evidence): the region with two historical records is
excluded from the prediction batch exactly like the one-record region —
`train_and_predict` raises for every region (the string `month` and `Region`
columns reach `MinMaxScaler.fit_transform`), so the returned batch is empty
and no region's forecast proceeds, not only the short-history one. -/
theorem predict_excludes_all_regions_counterexample :
    2 ≤ (histWitnessItems.filter (fun it => it.Region_id = 1)).length ∧
    predict_future_scores histWitnessItems = Except.ok [] :=
  ⟨by decide,
    predict_future_scores_empty histWitnessItems
      (by simp [histWitnessItems])⟩

end Tanmiya
